import Mathlib

set_option maxHeartbeats 1000000
set_option maxRecDepth 10000

/-! Verification of the admission-control layer of the portfolio backend
(request validator, rate limiter, session limiter, daily quota tracker,
IP block list) and of the frontend chat message cleaner. -/

namespace Portfolio

/-- Modelled from the spec: the global daily quota counter for the primary
model provider (the class `DailyQuotaTracker` of `backend/security_middleware.py`
is absent from the source tree; only its documentation is present). Fields
follow the spec data model: the stored date and the used count. Calendar
dates are abstracted as natural numbers. -/
structure DailyQuotaCounter where
  date : Nat
  usedCount : Nat
deriving DecidableEq

/-- Modelled from the spec: the constant `DailyQuotaTracker.DAILY_REQUEST_LIMIT`. -/
def DAILY_REQUEST_LIMIT : Nat := 500

/-- Result of one quota consumption attempt. -/
inductive QuotaResult where
  | allowed
  | exhausted
deriving DecidableEq

/-- Modelled from the spec: `try_consume`. If the stored date differs from the
current date the counter is lazily reset to zero for the new date; then, if
the used count is below the limit, it is incremented and the call is allowed;
otherwise the call reports exhaustion and the counter is unchanged. -/
def tryConsume (q : DailyQuotaCounter) (today : Nat) : QuotaResult × DailyQuotaCounter :=
  let q' := if q.date = today then q else ⟨today, 0⟩
  if q'.usedCount < DAILY_REQUEST_LIMIT then
    (QuotaResult.allowed, ⟨q'.date, q'.usedCount + 1⟩)
  else
    (QuotaResult.exhausted, q')

/-- Repeated quota consumption: the results of n successive calls of
tryConsume on a fixed date, together with the final counter. -/
def consumeN (today : Nat) (q : DailyQuotaCounter) : Nat → List QuotaResult × DailyQuotaCounter
  | 0 => ([], q)
  | n + 1 =>
    let r := tryConsume q today
    let rest := consumeN today r.2 n
    (r.1 :: rest.1, rest.2)

/-- A single conversation turn: role, content, timestamp. -/
abbrev Turn := String × String × Nat

/-- Modelled from the spec: one chat conversation record, restricted to the
fields the session-limit claims mention: the message count and the ordered
transcript of turns. -/
structure SessionRecord where
  messageCount : Nat
  transcript : List Turn
deriving DecidableEq

/-- Modelled from the spec: the constant `SessionLimiter.MAX_MESSAGES_PER_SESSION`. -/
def MAX_MESSAGES_PER_SESSION : Nat := 15

/-- Result of the session-limiter gate. -/
inductive SessionCheck where
  | allowed
  | sessionLimitReached
deriving DecidableEq

/-- Modelled from the spec: the session limiter gate; it fails with
`SessionLimitReached` exactly when the message count has reached the cap. -/
def checkSessionLimit (s : SessionRecord) : SessionCheck :=
  if MAX_MESSAGES_PER_SESSION ≤ s.messageCount then SessionCheck.sessionLimitReached
  else SessionCheck.allowed

/-- Modelled from the spec: admission of one new turn. On pass, the caller
increments the message count and appends the turn to the transcript; on
fail the record is unchanged. -/
def addTurn (s : SessionRecord) (t : Turn) : SessionCheck × SessionRecord :=
  match checkSessionLimit s with
  | SessionCheck.sessionLimitReached => (SessionCheck.sessionLimitReached, s)
  | SessionCheck.allowed =>
    (SessionCheck.allowed, ⟨s.messageCount + 1, s.transcript ++ [t]⟩)

/-- Sequential admission of a list of turns into one session. -/
def addTurns (s : SessionRecord) : List Turn → List SessionCheck × SessionRecord
  | [] => ([], s)
  | t :: ts =>
    let r := addTurn s t
    let rest := addTurns r.2 ts
    (r.1 :: rest.1, rest.2)

/-- A session with no prior traffic. -/
def emptySession : SessionRecord := ⟨0, []⟩

/-- Modelled from the spec: per-address window counters of the rate limiter
(`ClientWindowCounter` of the absent `backend/security_middleware.py`):
three fixed windows (minute, hour, day), each with a start time and a count. -/
structure ClientWindowCounter where
  minuteStart : Nat
  minuteCount : Nat
  hourStart : Nat
  hourCount : Nat
  dayStart : Nat
  dayCount : Nat
deriving DecidableEq

/-- Modelled from the spec: one IP Block List entry: a free-text reason, the
block timestamp, and the request count at the time of the block. -/
structure BlockedEntry where
  reason : String
  blockedAt : Nat
  requestCount : Nat
deriving DecidableEq

/-- Modelled from the spec: the address-keyed part of the admission-control
state: in-memory window counters per client address and the durably stored
block list keyed by address. -/
@[ext]
structure AdmissionState where
  counters : String → Option ClientWindowCounter
  blocked : String → Option BlockedEntry

/-- The state of a freshly started process: no counters, no blocks. -/
def initialState : AdmissionState := ⟨fun _ => none, fun _ => none⟩

/-- Modelled from the spec: a fixed window rolls over (count reset to zero,
new start set to now) when the current time minus the stored start exceeds
the window length; otherwise it is returned unchanged. -/
def rollWindow (now start len count : Nat) : Nat × Nat :=
  if len < now - start then (now, 0) else (start, count)

/-- The window counters created on the first request from an address. -/
def freshCounter (now : Nat) : ClientWindowCounter := ⟨now, 0, now, 0, now, 0⟩

/-- The three windows of an address rolled to the current time (a fresh
counter starting now when the address has no prior traffic). -/
def rolledCounter (st : AdmissionState) (addr : String) (now : Nat) : ClientWindowCounter :=
  let c := (st.counters addr).getD (freshCounter now)
  let m := rollWindow now c.minuteStart 60 c.minuteCount
  let h := rollWindow now c.hourStart 3600 c.hourCount
  let d := rollWindow now c.dayStart 86400 c.dayCount
  ⟨m.1, m.2, h.1, h.2, d.1, d.2⟩

/-- Outcome of one rate-limiter check. -/
inductive RateResult where
  | allowed
  | minuteLimited
  | hourLimited
  | dayLimited
deriving DecidableEq

/-- All three counts of a window record incremented once, windows kept. -/
def bumpAll (r : ClientWindowCounter) : ClientWindowCounter :=
  ⟨r.minuteStart, r.minuteCount + 1, r.hourStart, r.hourCount + 1, r.dayStart, r.dayCount + 1⟩

/-- Only the day count of a window record incremented, windows kept. -/
def bumpDay (r : ClientWindowCounter) : ClientWindowCounter :=
  ⟨r.minuteStart, r.minuteCount, r.hourStart, r.hourCount, r.dayStart, r.dayCount + 1⟩

/-- The block entry inserted on a day-bound violation at the given time
with the given triggering count. -/
def dayBlockEntry (now n : Nat) : BlockedEntry :=
  ⟨"Exceeded daily limit: " ++ toString n ++ " requests in 24 hours", now, n⟩

/-- The state stored when a request from the address passes all three
bounds: the rolled windows with all three counts incremented once. -/
def incrementState (st : AdmissionState) (addr : String) (now : Nat) : AdmissionState :=
  { st with counters := fun a =>
      if a = addr then some (bumpAll (rolledCounter st addr now)) else st.counters a }

/-- The state stored when the day bound is violated: the day counter is
incremented and a block entry recording the triggering count is inserted
into the block list. -/
def dayBlockState (st : AdmissionState) (addr : String) (now : Nat) : AdmissionState :=
  { counters := fun a =>
      if a = addr then some (bumpDay (rolledCounter st addr now)) else st.counters a
    blocked := fun a =>
      if a = addr then some (dayBlockEntry now ((rolledCounter st addr now).dayCount + 1))
      else st.blocked a }

/-- Modelled from the spec: `RateLimiter.check_rate_limit` of the absent
`backend/security_middleware.py`. Bounds are evaluated minute first, then
hour, then day; the first violated bound rejects the request; a request
rejected by the minute or hour bound changes no counter; a request rejected
by the day bound increments the day counter and inserts a block entry with
reason "Exceeded daily limit: N requests in 24 hours" where N is the count
that triggered the violation; when all bounds pass, all three counters are
incremented once. -/
def checkRateLimit (st : AdmissionState) (addr : String) (now : Nat) :
    RateResult × AdmissionState :=
  if 10 ≤ (rolledCounter st addr now).minuteCount then (RateResult.minuteLimited, st)
  else if 50 ≤ (rolledCounter st addr now).hourCount then (RateResult.hourLimited, st)
  else if 60 ≤ (rolledCounter st addr now).dayCount then
    (RateResult.dayLimited, dayBlockState st addr now)
  else
    (RateResult.allowed, incrementState st addr now)

/-- Outcome of the admission pipeline for one request. -/
inductive AdmissionResult where
  | blockedRejected
  | minuteLimited
  | hourLimited
  | dayLimited
  | passed
deriving DecidableEq

/-- Embedding of a rate-limiter outcome into the pipeline outcome. -/
def RateResult.toAdmission : RateResult → AdmissionResult
  | RateResult.allowed => AdmissionResult.passed
  | RateResult.minuteLimited => AdmissionResult.minuteLimited
  | RateResult.hourLimited => AdmissionResult.hourLimited
  | RateResult.dayLimited => AdmissionResult.dayLimited

/-- Modelled from the spec: the per-request control flow of the admission
layer restricted to its address-keyed components: the block list is checked
first (fast-path short-circuit, state untouched), then the rate limiter
runs. -/
def processRequest (st : AdmissionState) (addr : String) (now : Nat) :
    AdmissionResult × AdmissionState :=
  if (st.blocked addr).isSome then (AdmissionResult.blockedRejected, st)
  else ((checkRateLimit st addr now).1.toAdmission, (checkRateLimit st addr now).2)

/-- Sequence of rate-limiter checks for one address at the given times. -/
def runTimes (st : AdmissionState) (addr : String) : List Nat → List RateResult × AdmissionState
  | [] => ([], st)
  | t :: ts =>
    let r := checkRateLimit st addr t
    let rest := runTimes r.2 addr ts
    (r.1 :: rest.1, rest.2)

/-- Modelled from the spec: the unblock operation removes the block-list
entry of the given address; other addresses are untouched. -/
def unblock (st : AdmissionState) (addr : String) : AdmissionState :=
  { st with blocked := fun a => if a = addr then none else st.blocked a }

/-- Modelled from the spec: the block-list membership lookup. -/
def isBlocked (st : AdmissionState) (addr : String) : Bool :=
  (st.blocked addr).isSome

/-- The admission state of an address that has made k admitted requests,
all inside the windows that started at time t0, with no other traffic. -/
def uniformState (addr : String) (t0 k : Nat) : AdmissionState :=
  ⟨fun a => if a = addr then some ⟨t0, k, t0, k, t0, k⟩ else none, fun _ => none⟩

/-- Whether the first list occurs at the head of the second list. -/
def startsWithChars : List Char → List Char → Bool
  | [], _ => true
  | _ :: _, [] => false
  | p :: ps, c :: cs => p == c && startsWithChars ps cs

/-- Whether the first list occurs as a contiguous run inside the second. -/
def containsSub (pat : List Char) : List Char → Bool
  | [] => pat.isEmpty
  | c :: cs => startsWithChars pat (c :: cs) || containsSub pat cs

/-- Character-wise lowercasing of a message. -/
def lowerChars (l : List Char) : List Char := l.map Char.toLower

/-- Leading and trailing whitespace removed. -/
def trimChars (l : List Char) : List Char :=
  ((l.dropWhile Char.isWhitespace).reverse.dropWhile Char.isWhitespace).reverse

/-- Modelled from the spec: the constant `RequestValidator.MAX_MESSAGE_LENGTH`. -/
def MAX_MESSAGE_LENGTH : Nat := 500

/-- Modelled from the spec: the small fixed set of malicious pattern
classes of the request validator (script-injection markers, SQL-injection
keywords with statement syntax, path-traversal sequences), stored in
lowercase for case-insensitive matching. -/
def maliciousPatterns : List (List Char) :=
  ["<script>".data, "javascript:".data, "onerror=".data,
   "union select".data, "drop table".data, "../".data]

/-- Outcome of the request validator. -/
inductive ValidationResult where
  | valid
  | tooLong
  | emptyMessage
  | maliciousContent
deriving DecidableEq

/-- Modelled from the spec: the request validator of the absent
`backend/security_middleware.py`: too long over 500 characters, empty after
trimming, malicious when any fixed pattern occurs case-insensitively as a
substring; first match wins, otherwise the message is valid. -/
def validateMessage (text : List Char) : ValidationResult :=
  if MAX_MESSAGE_LENGTH < text.length then ValidationResult.tooLong
  else if trimChars text = [] then ValidationResult.emptyMessage
  else if maliciousPatterns.any (fun p => containsSub p (lowerChars text)) then
    ValidationResult.maliciousContent
  else ValidationResult.valid

/-- The backtick character. -/
def backtickChar : Char := Char.ofNat 96

/-- From `project/src/components/chat/ChatInterface.tsx`: the first
replacement step of cleanMessage removes each occurrence of the
two-character sequence ** scanning left to right. -/
def removeDoubleStar : List Char → List Char
  | [] => []
  | [c] => [c]
  | c :: d :: rest =>
    if c = '*' ∧ d = '*' then removeDoubleStar rest
    else c :: removeDoubleStar (d :: rest)

/-- From `project/src/components/chat/ChatInterface.tsx`: cleanMessage
strips markdown from a reply, over the character list of the string: it
removes ** pairs, then every remaining *, then every backtick. -/
def cleanMessage (s : List Char) : List Char :=
  ((removeDoubleStar s).filter (fun c => c ≠ '*')).filter (fun c => c ≠ backtickChar)

/-! Theorems. -/

lemma tryConsume_step (today c : Nat) (hc : c < DAILY_REQUEST_LIMIT) :
    tryConsume ⟨today, c⟩ today = (QuotaResult.allowed, ⟨today, c + 1⟩) := by
  simp [tryConsume, hc]

lemma consumeN_allowed (today : Nat) (k : Nat) :
    ∀ c, c + k ≤ DAILY_REQUEST_LIMIT →
      (consumeN today ⟨today, c⟩ k).1 = List.replicate k QuotaResult.allowed ∧
      (consumeN today ⟨today, c⟩ k).2 = ⟨today, c + k⟩ := by
  induction k with
  | zero => intro c _; simp [consumeN]
  | succ n ih =>
    intro c hc
    have hstep := tryConsume_step today c (by omega)
    have hrest := ih (c + 1) (by omega)
    refine ⟨?_, ?_⟩
    · simp [consumeN, hstep, hrest.1, List.replicate_succ]
    · simp only [consumeN, hstep]
      rw [hrest.2]
      congr 1
      omega

/-- C3: on a fixed date, tryConsume increments the used count and returns
Allowed exactly when the count is below the 500 limit, returns Exhausted
with the counter unchanged otherwise, never pushes the count past 500, and
after 500 consumed calls on one date the 501st call returns Exhausted with
the count still 500. -/
theorem tryConsume_quota_spec (q : DailyQuotaCounter) (today : Nat) (hd : q.date = today) :
    ((tryConsume q today).1 = QuotaResult.allowed ↔ q.usedCount < DAILY_REQUEST_LIMIT) ∧
    (q.usedCount < DAILY_REQUEST_LIMIT →
      (tryConsume q today).2 = ⟨today, q.usedCount + 1⟩) ∧
    (DAILY_REQUEST_LIMIT ≤ q.usedCount →
      (tryConsume q today).1 = QuotaResult.exhausted ∧ (tryConsume q today).2 = q) ∧
    (q.usedCount ≤ DAILY_REQUEST_LIMIT →
      (tryConsume q today).2.usedCount ≤ DAILY_REQUEST_LIMIT) ∧
    ((consumeN today ⟨today, 0⟩ DAILY_REQUEST_LIMIT).1 =
        List.replicate DAILY_REQUEST_LIMIT QuotaResult.allowed ∧
      (consumeN today ⟨today, 0⟩ DAILY_REQUEST_LIMIT).2 = ⟨today, DAILY_REQUEST_LIMIT⟩ ∧
      tryConsume ⟨today, DAILY_REQUEST_LIMIT⟩ today =
        (QuotaResult.exhausted, ⟨today, DAILY_REQUEST_LIMIT⟩)) := by
  have hrun := consumeN_allowed today DAILY_REQUEST_LIMIT 0 (by omega)
  refine ⟨?_, ?_, ?_, ?_, hrun.1, by simpa using hrun.2,
    by simp [tryConsume, DAILY_REQUEST_LIMIT]⟩
  · by_cases hc : q.usedCount < DAILY_REQUEST_LIMIT <;> simp [tryConsume, hd, hc]
  · intro hc; simp [tryConsume, hd, hc]
  · intro hc
    have hc' : ¬ q.usedCount < DAILY_REQUEST_LIMIT := by omega
    simp [tryConsume, hd, hc']
  · intro hc
    by_cases hlt : q.usedCount < DAILY_REQUEST_LIMIT <;>
      simp [tryConsume, hd, hlt] <;> omega

theorem tryConsume_quota_spec_witness :
    (tryConsume ⟨7, 0⟩ 7).1 = QuotaResult.allowed ∧
    tryConsume ⟨7, 500⟩ 7 = (QuotaResult.exhausted, ⟨7, 500⟩) := by
  refine ⟨(tryConsume_quota_spec ⟨7, 0⟩ 7 rfl).1.mpr (by decide), ?_⟩
  have h := (tryConsume_quota_spec ⟨7, 500⟩ 7 rfl).2.2.1 (by decide)
  exact Prod.ext h.1 h.2

/-- C5: the first tryConsume call on a date different from the stored date
resets the used count to 0 and stores the new date before the limit check
runs: whatever the old count was, the call is allowed and the counter
becomes (today, 1). The reset is driven purely by the date passed at call
time; the model has no clock or timer input. -/
theorem tryConsume_lazy_reset (q : DailyQuotaCounter) (today : Nat) (hd : q.date ≠ today) :
    tryConsume q today = (QuotaResult.allowed, ⟨today, 1⟩) := by
  simp [tryConsume, hd, DAILY_REQUEST_LIMIT]

theorem tryConsume_lazy_reset_witness :
    (0 : Nat) ≠ 1 ∧ tryConsume ⟨0, 700⟩ 1 = (QuotaResult.allowed, ⟨1, 1⟩) :=
  ⟨by decide, tryConsume_lazy_reset ⟨0, 700⟩ 1 (by decide)⟩

lemma addTurn_pass (s : SessionRecord) (t : Turn) (h : s.messageCount < MAX_MESSAGES_PER_SESSION) :
    addTurn s t = (SessionCheck.allowed, ⟨s.messageCount + 1, s.transcript ++ [t]⟩) := by
  have h' : ¬ MAX_MESSAGES_PER_SESSION ≤ s.messageCount := by omega
  simp [addTurn, checkSessionLimit, h']

lemma addTurn_reject (s : SessionRecord) (t : Turn) (h : MAX_MESSAGES_PER_SESSION ≤ s.messageCount) :
    addTurn s t = (SessionCheck.sessionLimitReached, s) := by
  simp [addTurn, checkSessionLimit, h]

lemma addTurns_under (ts : List Turn) :
    ∀ k tr, k + ts.length ≤ MAX_MESSAGES_PER_SESSION →
      (addTurns ⟨k, tr⟩ ts).1 = List.replicate ts.length SessionCheck.allowed ∧
      (addTurns ⟨k, tr⟩ ts).2 = ⟨k + ts.length, tr ++ ts⟩ := by
  induction ts with
  | nil => intro k tr _; simp [addTurns]
  | cons t ts ih =>
    intro k tr hk
    have hstep := addTurn_pass ⟨k, tr⟩ t (by simp at hk ⊢; omega)
    have hrest := ih (k + 1) (tr ++ [t]) (by simp at hk ⊢; omega)
    refine ⟨?_, ?_⟩
    · simp [addTurns, hstep, hrest.1, List.replicate_succ]
    · simp only [addTurns, hstep]
      rw [hrest.2]
      simp
      omega

lemma addTurns_glue (s : SessionRecord) (xs ys : List Turn) :
    addTurns s (xs ++ ys) =
      ((addTurns s xs).1 ++ (addTurns (addTurns s xs).2 ys).1,
        (addTurns (addTurns s xs).2 ys).2) := by
  induction xs generalizing s with
  | nil => simp [addTurns]
  | cons x xs ih => simp [addTurns, ih]

/-- C4: the session limiter rejects a new turn exactly when the session's
message count is at least 15; a record with count at most 15 keeps count at
most 15 after a turn is processed; the transcript length tracks the count;
and a fresh session given 16 messages admits exactly the first 15 and
rejects the 16th, the final record holding 15 messages and a 15-turn
transcript. -/
theorem sessionLimit_spec (s : SessionRecord) (t z : Turn) (ts : List Turn)
    (hts : ts.length = MAX_MESSAGES_PER_SESSION) :
    (checkSessionLimit s = SessionCheck.sessionLimitReached ↔
      MAX_MESSAGES_PER_SESSION ≤ s.messageCount) ∧
    (s.messageCount ≤ MAX_MESSAGES_PER_SESSION →
      (addTurn s t).2.messageCount ≤ MAX_MESSAGES_PER_SESSION) ∧
    (s.transcript.length = s.messageCount →
      (addTurn s t).2.transcript.length = (addTurn s t).2.messageCount) ∧
    ((addTurns emptySession (ts ++ [z])).1 =
        List.replicate MAX_MESSAGES_PER_SESSION SessionCheck.allowed ++
          [SessionCheck.sessionLimitReached] ∧
      (addTurns emptySession (ts ++ [z])).2 = ⟨MAX_MESSAGES_PER_SESSION, ts⟩) := by
  have hfull := addTurns_under ts 0 [] (by omega)
  have hzero : (0 : Nat) + ts.length = MAX_MESSAGES_PER_SESSION := by omega
  have hlast := addTurn_reject ⟨MAX_MESSAGES_PER_SESSION, ts⟩ z (le_refl _)
  refine ⟨?_, ?_, ?_, ?_, ?_⟩
  · unfold checkSessionLimit
    by_cases h : MAX_MESSAGES_PER_SESSION ≤ s.messageCount <;> simp [h]
  · intro h
    by_cases hlt : s.messageCount < MAX_MESSAGES_PER_SESSION
    · rw [addTurn_pass s t hlt]; dsimp only; omega
    · rw [addTurn_reject s t (by omega)]; exact h
  · intro h
    by_cases hlt : s.messageCount < MAX_MESSAGES_PER_SESSION
    · rw [addTurn_pass s t hlt]; simp [h]
    · rw [addTurn_reject s t (by omega)]; exact h
  · rw [addTurns_glue emptySession ts [z]]
    have h2 : (addTurns emptySession ts).2 = ⟨MAX_MESSAGES_PER_SESSION, ts⟩ := by
      rw [show emptySession = (⟨0, []⟩ : SessionRecord) from rfl, hfull.2]
      simp [hzero]
    rw [show emptySession = (⟨0, []⟩ : SessionRecord) from rfl] at h2 ⊢
    rw [hfull.1, h2]
    simp [addTurns, hlast, hts]
  · rw [addTurns_glue emptySession ts [z]]
    have h2 : (addTurns emptySession ts).2 = ⟨MAX_MESSAGES_PER_SESSION, ts⟩ := by
      rw [show emptySession = (⟨0, []⟩ : SessionRecord) from rfl, hfull.2]
      simp [hzero]
    rw [h2]
    simp [addTurns, hlast]

theorem sessionLimit_spec_witness :
    checkSessionLimit ⟨15, []⟩ = SessionCheck.sessionLimitReached ∧
    (addTurns emptySession (List.replicate 16 ("user", "hi", 0))).1 =
      List.replicate 15 SessionCheck.allowed ++ [SessionCheck.sessionLimitReached] := by
  have h := sessionLimit_spec ⟨15, []⟩ ("user", "hi", 0) ("user", "hi", 0)
    (List.replicate 15 ("user", "hi", 0)) (by decide)
  refine ⟨h.1.mpr (by decide), ?_⟩
  have h4 := h.2.2.2.1
  simpa using h4

lemma checkRateLimit_cases (st : AdmissionState) (addr : String) (now : Nat) :
    (10 ≤ (rolledCounter st addr now).minuteCount ∧
      checkRateLimit st addr now = (RateResult.minuteLimited, st)) ∨
    ((rolledCounter st addr now).minuteCount < 10 ∧ 50 ≤ (rolledCounter st addr now).hourCount ∧
      checkRateLimit st addr now = (RateResult.hourLimited, st)) ∨
    ((rolledCounter st addr now).minuteCount < 10 ∧ (rolledCounter st addr now).hourCount < 50 ∧
      60 ≤ (rolledCounter st addr now).dayCount ∧
      checkRateLimit st addr now = (RateResult.dayLimited, dayBlockState st addr now)) ∨
    ((rolledCounter st addr now).minuteCount < 10 ∧ (rolledCounter st addr now).hourCount < 50 ∧
      (rolledCounter st addr now).dayCount < 60 ∧
      checkRateLimit st addr now = (RateResult.allowed, incrementState st addr now)) := by
  unfold checkRateLimit
  split_ifs with h1 h2 h3
  · exact Or.inl ⟨h1, rfl⟩
  · exact Or.inr (Or.inl ⟨by omega, h2, rfl⟩)
  · exact Or.inr (Or.inr (Or.inl ⟨by omega, by omega, h3, rfl⟩))
  · exact Or.inr (Or.inr (Or.inr ⟨by omega, by omega, by omega, rfl⟩))

lemma rolledCounter_uniform (addr : String) (t0 k t : Nat) (h2 : t - t0 < 60) :
    rolledCounter (uniformState addr t0 k) addr t = ⟨t0, k, t0, k, t0, k⟩ := by
  have hm : ¬ 60 < t - t0 := by omega
  have hh : ¬ 3600 < t - t0 := by omega
  have hd : ¬ 86400 < t - t0 := by omega
  simp [rolledCounter, uniformState, rollWindow, hm, hh, hd]

lemma uniformState_succ (addr : String) (t0 k t : Nat) (h2 : t - t0 < 60) :
    incrementState (uniformState addr t0 k) addr t = uniformState addr t0 (k + 1) := by
  have hr := rolledCounter_uniform addr t0 k t h2
  refine AdmissionState.ext ?_ rfl
  funext a
  simp only [incrementState, hr, bumpAll]
  by_cases ha : a = addr <;> simp [uniformState, ha]

lemma checkRateLimit_uniform_pass (addr : String) (t0 k t : Nat)
    (h2 : t - t0 < 60) (hk : k < 10) :
    checkRateLimit (uniformState addr t0 k) addr t =
      (RateResult.allowed, uniformState addr t0 (k + 1)) := by
  have hr := rolledCounter_uniform addr t0 k t h2
  have h10 : ¬ 10 ≤ k := by omega
  have h50 : ¬ 50 ≤ k := by omega
  have h60 : ¬ 60 ≤ k := by omega
  rw [checkRateLimit, hr]
  simp only [h10, h50, h60, if_false]
  rw [uniformState_succ addr t0 k t h2]

lemma checkRateLimit_uniform_reject (addr : String) (t0 k t : Nat)
    (h2 : t - t0 < 60) (hk : 10 ≤ k) :
    checkRateLimit (uniformState addr t0 k) addr t =
      (RateResult.minuteLimited, uniformState addr t0 k) := by
  have hr := rolledCounter_uniform addr t0 k t h2
  rw [checkRateLimit, hr]
  simp [hk]

lemma checkRateLimit_first (addr : String) (t0 : Nat) :
    checkRateLimit initialState addr t0 = (RateResult.allowed, uniformState addr t0 1) := by
  have hr : rolledCounter initialState addr t0 = ⟨t0, 0, t0, 0, t0, 0⟩ := by
    simp [rolledCounter, initialState, freshCounter, rollWindow]
  rw [checkRateLimit, hr]
  norm_num
  refine AdmissionState.ext ?_ rfl
  funext a
  simp only [incrementState, hr, bumpAll]
  by_cases ha : a = addr <;> simp [initialState, uniformState, ha]

lemma runTimes_glue (st : AdmissionState) (addr : String) (xs ys : List Nat) :
    runTimes st addr (xs ++ ys) =
      ((runTimes st addr xs).1 ++ (runTimes (runTimes st addr xs).2 addr ys).1,
        (runTimes (runTimes st addr xs).2 addr ys).2) := by
  induction xs generalizing st with
  | nil => simp [runTimes]
  | cons x xs ih => simp [runTimes, ih]

lemma runTimes_uniform (addr : String) (t0 : Nat) (ts : List Nat) :
    ∀ k, k + ts.length ≤ 10 → (∀ u ∈ ts, u - t0 < 60) →
      (runTimes (uniformState addr t0 k) addr ts).1 =
        List.replicate ts.length RateResult.allowed ∧
      (runTimes (uniformState addr t0 k) addr ts).2 = uniformState addr t0 (k + ts.length) := by
  induction ts with
  | nil => intro k _ _; simp [runTimes]
  | cons t ts ih =>
    intro k hk hts
    have ht := hts t (List.mem_cons_self ..)
    have hstep := checkRateLimit_uniform_pass addr t0 k t ht
      (by simp only [List.length_cons] at hk; omega)
    have hrest := ih (k + 1) (by simp only [List.length_cons] at hk; omega)
      (fun u hu => hts u (List.mem_cons_of_mem _ hu))
    constructor
    · simp [runTimes, hstep, hrest.1, List.replicate_succ]
    · simp only [runTimes, hstep]
      rw [hrest.2]
      simp only [List.length_cons]
      congr 1
      omega

/-- C2: from a fresh address, of 11 requests all arriving within one minute
of the first (at times t0, then ts, then tl), the first 10 pass the rate
limiter and the 11th is rejected with the per-minute rate error. -/
theorem minuteLimit_spec (addr : String) (t0 tl : Nat) (ts : List Nat)
    (hlen : ts.length = 9)
    (hts : ∀ u ∈ ts, u - t0 < 60)
    (hl : tl - t0 < 60) :
    (runTimes initialState addr (t0 :: (ts ++ [tl]))).1 =
      List.replicate 10 RateResult.allowed ++ [RateResult.minuteLimited] := by
  have h1 := checkRateLimit_first addr t0
  have hrun := runTimes_uniform addr t0 ts 1 (by omega) hts
  have hlast := checkRateLimit_uniform_reject addr t0 10 tl hl (by omega)
  simp only [runTimes, h1]
  rw [runTimes_glue]
  rw [hrun.1, hrun.2]
  rw [show (1 : Nat) + ts.length = 10 by omega]
  simp [runTimes, hlast, hlen, List.replicate_succ]

theorem minuteLimit_spec_witness :
    (runTimes initialState "w" (0 :: (List.replicate 9 0 ++ [0]))).1 =
      List.replicate 10 RateResult.allowed ++ [RateResult.minuteLimited] :=
  minuteLimit_spec "w" 0 0 (List.replicate 9 0) (by decide) (by decide) (by decide)

/-- C1: when a request from an address is rejected by the day bound, the
resulting state holds a block entry for that address with reason
"Exceeded daily limit: N requests in 24 hours" for the triggering count N;
a request from an address holding a block entry is rejected with the block
error and changes nothing; and processing any request never removes any
block entry, so the entry stays until the unblock operation removes it. -/
theorem ipBlock_spec (st : AdmissionState) (addr a : String) (now t : Nat) (e : BlockedEntry) :
    ((processRequest st addr now).1 = AdmissionResult.dayLimited →
      (processRequest st addr now).2.blocked addr =
        some ⟨"Exceeded daily limit: " ++ toString ((rolledCounter st addr now).dayCount + 1) ++
                " requests in 24 hours", now, (rolledCounter st addr now).dayCount + 1⟩) ∧
    (st.blocked addr = some e →
      processRequest st addr now = (AdmissionResult.blockedRejected, st)) ∧
    (st.blocked a = some e → (processRequest st addr t).2.blocked a = some e) := by
  refine ⟨?_, ?_, ?_⟩
  · intro h
    rw [processRequest] at h ⊢
    by_cases hb : (st.blocked addr).isSome
    · rw [if_pos hb] at h; exact absurd h (by simp)
    · rw [if_neg hb] at h ⊢
      rcases checkRateLimit_cases st addr now with ⟨_, hc⟩ | ⟨_, _, hc⟩ |
        ⟨_, _, _, hc⟩ | ⟨_, _, _, hc⟩ <;> rw [hc] at h ⊢
      · exact absurd h (by simp [RateResult.toAdmission])
      · exact absurd h (by simp [RateResult.toAdmission])
      · simp [dayBlockState, dayBlockEntry]
      · exact absurd h (by simp [RateResult.toAdmission])
  · intro hb
    rw [processRequest, if_pos (by rw [hb]; rfl)]
  · intro hb
    rw [processRequest]
    by_cases hba : (st.blocked addr).isSome
    · rw [if_pos hba]; exact hb
    · rw [if_neg hba]
      rcases checkRateLimit_cases st addr t with ⟨_, hc⟩ | ⟨_, _, hc⟩ |
        ⟨_, _, _, hc⟩ | ⟨_, _, _, hc⟩ <;> rw [hc]
      · exact hb
      · exact hb
      · by_cases ha : a = addr
        · rw [← ha, hb] at hba; simp at hba
        · simpa [dayBlockState, ha] using hb
      · simpa [incrementState] using hb

theorem ipBlock_spec_witness :
    (processRequest ⟨fun _ => some ⟨0, 0, 0, 0, 0, 60⟩, fun _ => none⟩ "b1" 0).2.blocked "b1" =
      some ⟨"Exceeded daily limit: 61 requests in 24 hours", 0, 61⟩ ∧
    processRequest ⟨fun _ => none, fun _ => some ⟨"r", 2, 5⟩⟩ "b1" 3 =
      (AdmissionResult.blockedRejected, ⟨fun _ => none, fun _ => some ⟨"r", 2, 5⟩⟩) ∧
    (processRequest ⟨fun _ => none, fun _ => some ⟨"r", 2, 5⟩⟩ "b2" 3).2.blocked "b1" =
      some ⟨"r", 2, 5⟩ := by
  refine ⟨?_, ?_, ?_⟩
  · have h := (ipBlock_spec ⟨fun _ => some ⟨0, 0, 0, 0, 0, 60⟩, fun _ => none⟩
      "b1" "b1" 0 0 ⟨"r", 2, 5⟩).1 (by decide)
    exact h.trans (by decide)
  · exact (ipBlock_spec ⟨fun _ => none, fun _ => some ⟨"r", 2, 5⟩⟩
      "b1" "b1" 3 3 ⟨"r", 2, 5⟩).2.1 rfl
  · exact (ipBlock_spec ⟨fun _ => none, fun _ => some ⟨"r", 2, 5⟩⟩
      "b2" "b1" 3 3 ⟨"r", 2, 5⟩).2.2 rfl

/-- C6 counterexample: after 60 admitted requests from one fresh address at
times 0, 80, 160, ..., the day counter stands at 60; the 61st request at
time 4800 is rejected by the day bound, yet the day counter changes from 60
to 61 — so a rejected request does not always leave all counters
unchanged. -/
theorem allOrNothing_counterexample :
    ((runTimes initialState "cx" ((List.range 60).map (fun i => 80 * i))).2.counters "cx").map
        (fun c => c.dayCount) = some 60 ∧
    (checkRateLimit
        (runTimes initialState "cx" ((List.range 60).map (fun i => 80 * i))).2 "cx" 4800).1 =
      RateResult.dayLimited ∧
    ((checkRateLimit
          (runTimes initialState "cx" ((List.range 60).map (fun i => 80 * i))).2 "cx"
          4800).2.counters "cx").map (fun c => c.dayCount) = some 61 :=
  ⟨by decide, by decide, by decide⟩

/-- C6 amended: the first violated bound, in the order minute, hour, day,
determines the rejection outcome; a request rejected by the minute or hour
bound changes no state at all; a request that passes all bounds increments
all three counters exactly once; but a request rejected by the day bound is
not change-free: it increments the day counter (leaving the minute and hour
counts at their rolled values) while inserting the block entry. -/
theorem rateLimit_update_spec (st : AdmissionState) (addr : String) (now : Nat) :
    ((checkRateLimit st addr now).1 = RateResult.minuteLimited ↔
      10 ≤ (rolledCounter st addr now).minuteCount) ∧
    ((checkRateLimit st addr now).1 = RateResult.hourLimited ↔
      ((rolledCounter st addr now).minuteCount < 10 ∧
        50 ≤ (rolledCounter st addr now).hourCount)) ∧
    ((checkRateLimit st addr now).1 = RateResult.dayLimited ↔
      ((rolledCounter st addr now).minuteCount < 10 ∧
        (rolledCounter st addr now).hourCount < 50 ∧
        60 ≤ (rolledCounter st addr now).dayCount)) ∧
    ((checkRateLimit st addr now).1 = RateResult.allowed ↔
      ((rolledCounter st addr now).minuteCount < 10 ∧
        (rolledCounter st addr now).hourCount < 50 ∧
        (rolledCounter st addr now).dayCount < 60)) ∧
    ((checkRateLimit st addr now).1 = RateResult.minuteLimited ∨
        (checkRateLimit st addr now).1 = RateResult.hourLimited →
      (checkRateLimit st addr now).2 = st) ∧
    ((checkRateLimit st addr now).1 = RateResult.allowed →
      (checkRateLimit st addr now).2.counters addr =
        some (bumpAll (rolledCounter st addr now))) ∧
    ((checkRateLimit st addr now).1 = RateResult.dayLimited →
      (checkRateLimit st addr now).2.counters addr =
        some (bumpDay (rolledCounter st addr now))) := by
  rcases checkRateLimit_cases st addr now with ⟨h1, hc⟩ | ⟨h1, h2, hc⟩ |
    ⟨h1, h2, h3, hc⟩ | ⟨h1, h2, h3, hc⟩ <;> rw [hc] <;>
    refine ⟨?_, ?_, ?_, ?_, ?_, ?_, ?_⟩ <;>
    simp [incrementState, dayBlockState] <;> omega

theorem rateLimit_update_spec_witness :
    (checkRateLimit initialState "v1" 0).1 = RateResult.allowed ∧
    (checkRateLimit initialState "v1" 0).2.counters "v1" = some ⟨0, 1, 0, 1, 0, 1⟩ ∧
    (checkRateLimit ⟨fun _ => some ⟨0, 10, 0, 10, 0, 10⟩, fun _ => none⟩ "v2" 0).2 =
      (⟨fun _ => some ⟨0, 10, 0, 10, 0, 10⟩, fun _ => none⟩ : AdmissionState) ∧
    (checkRateLimit ⟨fun _ => some ⟨0, 0, 0, 0, 0, 60⟩, fun _ => none⟩ "v3" 0).2.counters "v3" =
      some ⟨0, 0, 0, 0, 0, 61⟩ := by
  refine ⟨?_, ?_, ?_, ?_⟩
  · exact (rateLimit_update_spec initialState "v1" 0).2.2.2.1.mpr (by decide)
  · have h := (rateLimit_update_spec initialState "v1" 0).2.2.2.2.2.1 (by decide)
    exact h.trans (by decide)
  · exact (rateLimit_update_spec ⟨fun _ => some ⟨0, 10, 0, 10, 0, 10⟩, fun _ => none⟩
      "v2" 0).2.2.2.2.1 (Or.inl (by decide))
  · have h := (rateLimit_update_spec ⟨fun _ => some ⟨0, 0, 0, 0, 0, 60⟩, fun _ => none⟩
      "v3" 0).2.2.2.2.2.2 (by decide)
    exact h.trans (by decide)

/-- C7: after unblocking an address it passes the block-list check (the
lookup finds nothing and the next request is not rejected as blocked),
unblocking twice equals unblocking once, and unblocking an address with no
entry is a no-op rather than an error. -/
theorem unblock_spec (st : AdmissionState) (addr : String) (now : Nat) :
    isBlocked (unblock st addr) addr = false ∧
    (processRequest (unblock st addr) addr now).1 ≠ AdmissionResult.blockedRejected ∧
    unblock (unblock st addr) addr = unblock st addr ∧
    (st.blocked addr = none → unblock st addr = st) := by
  have hnone : (unblock st addr).blocked addr = none := by simp [unblock]
  refine ⟨?_, ?_, ?_, ?_⟩
  · simp [isBlocked, hnone]
  · rw [processRequest, if_neg (by rw [hnone]; simp)]
    cases hc : (checkRateLimit (unblock st addr) addr now).1 <;>
      simp [hc, RateResult.toAdmission]
  · refine AdmissionState.ext rfl ?_
    funext b
    by_cases hb : b = addr <;> simp [unblock, hb]
  · intro h
    refine AdmissionState.ext rfl ?_
    funext b
    by_cases hb : b = addr
    · subst hb; simp [unblock, h]
    · simp [unblock, hb]

theorem unblock_spec_witness :
    isBlocked (unblock initialState "u") "u" = false ∧
    unblock initialState "u" = initialState :=
  ⟨(unblock_spec initialState "u" 0).1, (unblock_spec initialState "u" 0).2.2.2 rfl⟩

lemma startsWithChars_self (p r : List Char) : startsWithChars p (p ++ r) = true := by
  induction p with
  | nil => rfl
  | cons c cs ih => simp [startsWithChars, ih]

lemma containsSub_head (pat s : List Char) (h : startsWithChars pat s = true) :
    containsSub pat s = true := by
  cases s with
  | nil =>
    cases pat with
    | nil => rfl
    | cons c cs => simp [startsWithChars] at h
  | cons c cs => simp [containsSub, h]

lemma containsSub_of_parts (pat l r : List Char) : containsSub pat (l ++ (pat ++ r)) = true := by
  induction l with
  | nil => simpa using containsSub_head pat (pat ++ r) (startsWithChars_self pat r)
  | cons c cs ih => simp [containsSub, ih]

/-- C8: every message containing the literal substring "&lt;script&gt;", in
any position and with any surrounding content, fails validation. -/
theorem scriptReject_spec (l r : List Char) :
    validateMessage (l ++ "<script>".data ++ r) ≠ ValidationResult.valid := by
  have hmal : maliciousPatterns.any
      (fun p => containsSub p (lowerChars (l ++ "<script>".data ++ r))) = true := by
    apply List.any_eq_true.mpr
    refine ⟨"<script>".data, by decide, ?_⟩
    have hsplit : lowerChars (l ++ "<script>".data ++ r) =
        lowerChars l ++ ("<script>".data ++ lowerChars r) := by
      simp only [lowerChars, List.map_append, List.append_assoc]
      rw [show List.map Char.toLower "<script>".data = "<script>".data from by decide]
    rw [hsplit]
    exact containsSub_of_parts _ _ _
  intro hv
  rw [validateMessage] at hv
  split_ifs at hv

theorem scriptReject_spec_witness :
    validateMessage ("say ".data ++ "<script>".data ++ " now".data) ≠ ValidationResult.valid :=
  scriptReject_spec "say ".data " now".data

lemma removeDoubleStar_no_star (l : List Char) (h : '*' ∉ l) : removeDoubleStar l = l := by
  induction l with
  | nil => rfl
  | cons c cs ih =>
    cases cs with
    | nil => rfl
    | cons d ds =>
      have hc : ¬(c = '*' ∧ d = '*') := by
        intro hcd
        exact h (by simp [hcd.1])
      rw [removeDoubleStar, if_neg hc]
      have hrest : '*' ∉ d :: ds := fun hm => h (List.mem_cons_of_mem _ hm)
      rw [ih hrest]

lemma cleanMessage_no_star (s : List Char) : '*' ∉ cleanMessage s := by
  intro h
  have h1 := List.mem_of_mem_filter h
  have h2 := (List.mem_filter.mp h1).2
  simp at h2

lemma cleanMessage_no_backtick (s : List Char) : backtickChar ∉ cleanMessage s := by
  intro h
  have h2 := (List.mem_filter.mp h).2
  simp at h2

/-- C9: cleanMessage leaves no asterisk and no backtick in its output, and
it is idempotent: cleaning an already-cleaned message changes nothing. -/
theorem cleanMessage_spec (s : List Char) :
    '*' ∉ cleanMessage s ∧ backtickChar ∉ cleanMessage s ∧
    cleanMessage (cleanMessage s) = cleanMessage s := by
  have hstar := cleanMessage_no_star s
  have htick := cleanMessage_no_backtick s
  refine ⟨hstar, htick, ?_⟩
  have h1 : removeDoubleStar (cleanMessage s) = cleanMessage s :=
    removeDoubleStar_no_star _ hstar
  have h2 : (cleanMessage s).filter (fun c => c ≠ '*') = cleanMessage s := by
    apply List.filter_eq_self.mpr
    intro a ha
    simp only [decide_eq_true_eq]
    intro hEq
    exact hstar (hEq ▸ ha)
  have h3 : (cleanMessage s).filter (fun c => c ≠ backtickChar) = cleanMessage s := by
    apply List.filter_eq_self.mpr
    intro a ha
    simp only [decide_eq_true_eq]
    intro hEq
    exact htick (hEq ▸ ha)
  have hdef : cleanMessage (cleanMessage s) =
      ((removeDoubleStar (cleanMessage s)).filter (fun c => c ≠ '*')).filter
        (fun c => c ≠ backtickChar) := rfl
  rw [hdef, h1, h2, h3]

theorem cleanMessage_spec_witness :
    '*' ∉ cleanMessage "a**b*c".data ∧ backtickChar ∉ cleanMessage "a**b*c".data ∧
    cleanMessage (cleanMessage "a**b*c".data) = cleanMessage "a**b*c".data :=
  cleanMessage_spec "a**b*c".data

end Portfolio

